import Mathlib

/-!
# Verification of the `editing` 2D scene engine core

Shallow embedding, in Lean 4, of the state-synchronization core of the
`editing` repository:

* `src/src/history.rs` — the transactional undo/redo log (`History`,
  `HistoryItem`, `HistoryUnit`);
* `src/src/render_control.rs` — the message-batching bus (`RenderControl`,
  `UpdateMessage`, `UpdateBody`);
* `src/src/object_manager.rs` — the object store and its uniform spatial
  grid (`ObjectManager`, `Grid`);
* `src/src/element.rs` — the color-identity allocator (`ObjectId`).

Conventions used throughout:

* Rust `f64` quantities that the algorithms only compare, add, and
  floor/ceil-divide (positions, timestamps, JSON numeric payloads) are
  modelled as `Int` (every division the code performs is immediately
  floored or ceiled, so on the integral sample points the claims quantify
  over, `(x / c).floor` is exact floor division); monotone-clock instants
  (`wasm_timer::Instant`) and wall-clock stamps fed to the history window
  check are modelled as `Nat` milliseconds, so the source's
  `duration_since(..).as_secs_f64() > 0.5` becomes `now - last > 500`.
* `HashMap`s are modelled as association lists with first-match lookup and
  replace-first insertion; `Vec` keeps Rust index order (index 0 first).
* `Rc<RefCell<..>>` shared state is modelled by plain record fields on a
  single state value threaded through the operations.
* JSON payloads (`serde_json::Value` objects of numeric fields) are
  modelled as association lists `List (String × Int)`; applying a payload
  merges the listed fields into the target, which is the behavior of the
  `DirtySetter`-generated `update` method (each `Some` field is assigned)
  and of `SceneManager::update_scene` (every field of the snapshot is
  assigned).

The `App` type that `History` is attached to is present in the repository
only through its callers (`history.rs`, `scene_manager.rs`, `lib.rs` use
`app.history`, `app.request_render()`, `app.reset_to_initial_state()`, and
`object_manager.update_object`, none of which appear under `src/`); those
few operations are modelled from the spec where indicated.
-/

namespace Editing

/-! ## Association-list helpers (model of `HashMap`) -/

/-- First-match lookup in an association list. -/
def lookupA {κ α : Type} [DecidableEq κ] : List (κ × α) → κ → Option α
  | [], _ => none
  | (k', v) :: rest, k => if k' = k then some v else lookupA rest k

/-- Replace the first binding of `k` (or append one): model of `HashMap::insert`. -/
def setA {κ α : Type} [DecidableEq κ] : List (κ × α) → κ → α → List (κ × α)
  | [], k, v => [(k, v)]
  | (k', v') :: rest, k, v =>
    if k' = k then (k, v) :: rest else (k', v') :: setA rest k v

/-- Drop every binding of `k`: model of `HashMap::remove`. -/
def removeA {κ α : Type} [DecidableEq κ] : List (κ × α) → κ → List (κ × α)
  | [], _ => []
  | (k', v) :: rest, k =>
    if k' = k then removeA rest k else (k', v) :: removeA rest k

/-! ## JSON payloads -/

/-- A JSON object of numeric fields, as produced by the `DirtySetter` macro
(`serde_json::json!({ field: value })`) and by
`serde_json::to_value(SceneDirtyData)`. -/
abbrev Payload := List (String × Int)

/-- Assign one field of a JSON-backed property set. -/
def setField : Payload → String → Int → Payload
  | [], k, v => [(k, v)]
  | (k', v') :: rest, k, v =>
    if k' = k then (k, v) :: rest else (k', v') :: setField rest k v

/-- Merge a payload into a property set, assigning each listed field in
order. This is the semantics of the macro-generated
`fn update(&mut self, data: Value)` (each `Some` field of `DirtyUpdates`
is assigned) and of `SceneManager::update_scene` (each field of the
deserialized `SceneDirtyData` is assigned through its setter; the
`f64` zoom clamp and rotation wrap are identities on recorded history
payloads, which are snapshots of already-clamped stored fields). -/
def mergePayload (props : Payload) (data : Payload) : Payload :=
  data.foldl (fun acc kv => setField acc kv.1 kv.2) props

/-! ## History data model (`src/src/history.rs`) -/

/-- `HistoryItem` (history.rs:64-70): one recorded reversible mutation.
Timestamps are wall-clock ms (`js_sys::Date::now()`), modelled as `Nat`. -/
inductive HistoryItem where
  | objectUpdate (object_id : String) (undo_data redo_data : Payload) (timestamp : Nat)
  | sceneUpdate (undo_data redo_data : Payload) (timestamp : Nat)
  | addElement (element_id element_type : String) (element_data : Payload) (timestamp : Nat)
  | removeElement (element_id element_type : String) (element_data : Payload) (timestamp : Nat)
deriving DecidableEq, Repr

/-- `HistoryUnit` (history.rs:72-75): an ordered group of items forming one
undo step, plus the wall-clock timestamp at which the unit was opened. -/
structure HistoryUnit where
  items : List HistoryItem
  timestamp : Nat
deriving DecidableEq, Repr

/-- The observable live state reachable through the attached `App`: the
object store (id → JSON-backed properties) and the scene transform data
(`SceneDirtyData` fields). -/
structure AppState where
  objects : List (String × Payload)
  scene : Payload
deriving DecidableEq, Repr

/-- Modelled from the spec: `ObjectManager::update_object(id, data)` is
called by `History::apply_history_unit` but does not appear under `src/`;
per §4.2/§7 it applies the payload to the object with that id and treats
an unknown id as a no-op. Field application follows the macro-generated
`Renderable::update` (merge the listed fields). -/
def AppState.update_object (s : AppState) (id : String) (data : Payload) : AppState :=
  match lookupA s.objects id with
  | some props => { s with objects := setA s.objects id (mergePayload props data) }
  | none => s

/-- `SceneManager::update_scene` (scene_manager.rs:290-299): assign every
field of the deserialized scene snapshot. -/
def AppState.update_scene (s : AppState) (data : Payload) : AppState :=
  { s with scene := mergePayload s.scene data }

/-- `ObjectManager::add` reached through `create_element` (the element is
reconstructed from its recorded `element_data`; `create_element` itself is
behind `helper.rs` in a newer snapshot than `src/` carries, and is
modelled from the spec as building a renderable whose properties are the
recorded data). -/
def AppState.add_element (s : AppState) (id : String) (data : Payload) : AppState :=
  { s with objects := setA s.objects id data }

/-- `ObjectManager::remove` as used by `apply_history_unit`. -/
def AppState.remove_element (s : AppState) (id : String) : AppState :=
  { s with objects := removeA s.objects id }

/-- One step of `History::apply_history_unit`'s per-item match
(history.rs:209-249): pick the undo or redo payload and apply it. -/
def applyItem (s : AppState) (item : HistoryItem) (is_undo : Bool) : AppState :=
  match item with
  | .objectUpdate object_id undo_data redo_data _ =>
      s.update_object object_id (if is_undo then undo_data else redo_data)
  | .sceneUpdate undo_data redo_data _ =>
      s.update_scene (if is_undo then undo_data else redo_data)
  | .addElement element_id _ element_data _ =>
      if is_undo then s.remove_element element_id else s.add_element element_id element_data
  | .removeElement element_id _ element_data _ =>
      if is_undo then s.add_element element_id element_data else s.remove_element element_id

/-- `History::apply_history_unit` (history.rs:202-251): items are applied
in reverse order for undo and forward order for redo. -/
def applyHistoryUnit (s : AppState) (unit : HistoryUnit) (is_undo : Bool) : AppState :=
  let items := if is_undo then unit.items.reverse else unit.items
  items.foldl (fun a it => applyItem a it is_undo) s

/-- `History` (history.rs:77-87). Stacks keep `Vec` order: index 0 is the
oldest unit, push appends, pop takes the last element. `last_push_time`
is the monotone clock (`wasm_timer::Instant`) in ms. -/
structure History where
  undo_stack : List HistoryUnit
  redo_stack : List HistoryUnit
  current_unit : Option HistoryUnit
  last_push_time : Nat
  is_undoing : Bool
  is_redoing : Bool
deriving DecidableEq, Repr

/-- `History::new` (history.rs:107-118), with the creation instant as the
clock origin. -/
def History.new : History :=
  { undo_stack := [], redo_stack := [], current_unit := none
    last_push_time := 0, is_undoing := false, is_redoing := false }

/-- `History::finalize_current_unit` (history.rs:189-196): move a nonempty
open unit onto the undo stack. -/
def History.finalize_current_unit (h : History) : History :=
  match h.current_unit with
  | none => h
  | some unit =>
      { h with current_unit := none
               undo_stack := if unit.items.isEmpty then h.undo_stack
                             else h.undo_stack ++ [unit] }

/-- `History::push` (history.rs:162-187). `now` is the monotone clock in
ms (the source compares `duration_since(last_push_time).as_secs_f64() >
0.5`, i.e. strictly more than 500 ms), `wall` is `js_sys::Date::now()`
used to stamp a freshly opened unit. -/
def History.push (h : History) (item : HistoryItem) (now wall : Nat) : History :=
  if h.is_undoing || h.is_redoing then h
  else
    let should_finalize := h.current_unit.isNone || decide (now - h.last_push_time > 500)
    let h2 :=
      if should_finalize then
        let h1 := h.finalize_current_unit
        { h1 with current_unit := some ⟨[item], wall⟩ }
      else
        { h with current_unit :=
            match h.current_unit with
            | some unit => some ⟨unit.items ++ [item], unit.timestamp⟩
            | none => none }
        -- the `none` case is unreachable: `should_finalize` is false only
        -- when `current_unit` is `some` (the source `unwrap`s here)
    { h2 with redo_stack := [], last_push_time := now }

/-- `History::can_undo` (history.rs:339-341). -/
def History.can_undo (h : History) : Bool :=
  !h.undo_stack.isEmpty || h.current_unit.isSome

/-- `History::can_redo` (history.rs:343-345). -/
def History.can_redo (h : History) : Bool :=
  !h.redo_stack.isEmpty

/-- A `History` together with the observable state of its (optionally)
attached `App`. `initial` is the app's initial condition, the target of
`App::reset_to_initial_state` (modelled from the spec: that method is
called in history.rs but lives outside `src/`; §4.3 specifies "reset the
live state to its initial condition"). `app = none` models a `History`
with no attached app. -/
structure Sys where
  hist : History
  app : Option AppState
  initial : AppState
deriving DecidableEq, Repr

/-- `History::undo` (history.rs:253-269). Faithful to the source control
flow: `is_undoing` is set to `true` on entry and reset to `false` only on
the failure paths — a successful undo returns with the flag still set.
`app.request_render()` only emits a render message and does not change
the observable state. -/
def Sys.undo (s : Sys) : Sys × Bool :=
  let h := { s.hist with is_undoing := true }
  let h := h.finalize_current_unit
  match s.app with
  | some app =>
      match h.undo_stack.getLast? with
      | some unit =>
          let app2 := applyHistoryUnit app unit true
          ({ s with hist := { h with undo_stack := h.undo_stack.dropLast
                                     redo_stack := h.redo_stack ++ [unit] }
                    app := some app2 }, true)
      | none => ({ s with hist := { h with is_undoing := false } }, false)
  | none => ({ s with hist := { h with is_undoing := false } }, false)

/-- `History::redo` (history.rs:271-287), symmetric to `undo` (including
the flag that stays set after a successful redo). -/
def Sys.redo (s : Sys) : Sys × Bool :=
  let h := { s.hist with is_redoing := true }
  let h := h.finalize_current_unit
  match s.app with
  | some app =>
      match h.redo_stack.getLast? with
      | some unit =>
          let app2 := applyHistoryUnit app unit false
          ({ s with hist := { h with redo_stack := h.redo_stack.dropLast
                                     undo_stack := h.undo_stack ++ [unit] }
                    app := some app2 }, true)
      | none => ({ s with hist := { h with is_redoing := false } }, false)
  | none => ({ s with hist := { h with is_redoing := false } }, false)

/-- `History::apply_operations_to_current_state` (history.rs:332-337):
`app.reset_to_initial_state()` (modelled from the spec as restoring the
initial observable state) followed by `apply_history_unit` on each unit
in stack order with the given direction flag. -/
def apply_operations_to_current_state
    (initial : AppState) (operations : List HistoryUnit) (is_undo : Bool) : AppState :=
  operations.foldl (fun a unit => applyHistoryUnit a unit is_undo) initial

/-- `History::undo_to_time` (history.rs:289-308). The boundary index is
`undo_stack.iter().position(|unit| unit.timestamp <= target).unwrap_or(0)`;
the drained suffix is reversed onto the redo stack and the remaining
stack is replayed from the initial state with `is_undo = true`. -/
def Sys.undo_to_time (s : Sys) (target : Nat) : Sys × Bool :=
  let h := { s.hist with is_undoing := true }
  let h := h.finalize_current_unit
  match s.app with
  | some _ =>
      let target_index := (h.undo_stack.findIdx? (fun unit => decide (unit.timestamp ≤ target))).getD 0
      let kept := h.undo_stack.take target_index
      let moved := (h.undo_stack.drop target_index).reverse
      let app2 := apply_operations_to_current_state s.initial kept true
      ({ s with hist := { h with undo_stack := kept
                                 redo_stack := h.redo_stack ++ moved }
                app := some app2 }, true)
  | none => ({ s with hist := { h with is_undoing := false } }, false)

/-- Iterate `Sys.undo`, discarding the returned flags. -/
def undoN : Nat → Sys → Sys
  | 0, s => s
  | n + 1, s => undoN n (s.undo).1

/-- Iterate `Sys.redo`, discarding the returned flags. -/
def redoN : Nat → Sys → Sys
  | 0, s => s
  | n + 1, s => redoN n (s.redo).1

/-! ## RenderControl (`src/src/render_control.rs`) -/

/-- `UpdateType` (render_control.rs:102-106). -/
inductive UpdateType where
  | objectUpdate (id : String)
  | sceneUpdate
deriving DecidableEq, Repr

/-- `UpdateBody` (render_control.rs:114-120): `priority` is a `u8`,
`data` a JSON value, `timestamp` seconds since an arbitrary instant. -/
structure UpdateBody where
  update_type : UpdateType
  data : Payload
  timestamp : Int
  priority : Nat
deriving DecidableEq, Repr

/-- `UpdateMessage` (render_control.rs:108-112). -/
inductive UpdateMessage where
  | forceUpdate
  | update (body : UpdateBody)
deriving DecidableEq, Repr

/-- The predicate the buffered-insertion scan uses (render_control.rs:57-63):
an existing buffered message strictly lower in priority than the new body. -/
def msgLowerPriority (m : UpdateMessage) (body : UpdateBody) : Bool :=
  match m with
  | .update existing_body => existing_body.priority < body.priority
  | .forceUpdate => false

/-- The priority-ordered insertion of `RenderControl::add_message`
(render_control.rs:53-66): find the first buffered message of strictly
lower priority (`position` + `unwrap_or(len)`) and insert before it, so a
new message lands after every message of equal or higher priority. -/
def insertByPriority (buffer : List UpdateMessage) (body : UpdateBody) : List UpdateMessage :=
  let insert_position :=
    (buffer.findIdx? (fun m => msgLowerPriority m body)).getD buffer.length
  buffer.insertIdx insert_position (.update body)

/-- `RenderControl` (render_control.rs:26-32). The mpsc channel is
modelled by `sent`, the ordered list of batches handed to
`spawn_local`+`try_send`; `last_flush` is the monotone clock in ms
(`flush_interval` is 0.008 s = 8 ms). -/
structure RenderControl where
  buffer : List UpdateMessage
  last_flush : Nat
  sent : List (List UpdateMessage)
deriving DecidableEq, Repr

/-- `RenderControl::flush` (render_control.rs:81-95): when the buffer is
nonempty, drain it into a single batch, hand the batch to the channel and
reset the flush clock; otherwise do nothing. -/
def RenderControl.flush (rc : RenderControl) (now : Nat) : RenderControl :=
  if rc.buffer.isEmpty then rc
  else { buffer := [], last_flush := now, sent := rc.sent ++ [rc.buffer] }

/-- `RenderControl::flush_if_needed` (render_control.rs:72-79). The source
compares `elapsed - current_time >= flush_interval` where `current_time`
is `Instant::now().elapsed()`, the elapsed time of a freshly created
instant, modelled as 0; so the flush fires when at least 8 ms have passed
since the previous flush. -/
def RenderControl.flush_if_needed (rc : RenderControl) (now : Nat) : RenderControl :=
  if now - rc.last_flush ≥ 8 then rc.flush now else rc

/-- `RenderControl::add_message` (render_control.rs:46-70): `ForceUpdate`
flushes synchronously and clears the buffer; `Update(body)` is inserted
by priority and the time-based flush policy is evaluated. -/
def RenderControl.add_message (rc : RenderControl) (message : UpdateMessage) (now : Nat) :
    RenderControl :=
  match message with
  | .forceUpdate =>
      let rc2 := rc.flush now
      { rc2 with buffer := [] }
  | .update update_body =>
      let rc2 := { rc with buffer := insertByPriority rc.buffer update_body }
      rc2.flush_if_needed now

/-! ## ObjectManager and its spatial grid (`src/src/object_manager.rs`) -/

/-- World positions, `glam::DVec2` modelled over `Int`. -/
abbrev Pos := Int × Int

/-- Grid cell coordinates (`(i32, i32)`). -/
abbrev Cell := Int × Int

/-- `GRID_CELL_SIZE` (object_manager.rs:9). -/
def GRID_CELL_SIZE : Int := 100

/-- `Grid` (object_manager.rs:17-20): cell → member object ids
(`GridCell.objects`), with the `HashMap` as an association list. -/
structure Grid where
  cells : List (Cell × List String)
deriving DecidableEq, Repr

/-- `Grid::world_to_cell` (object_manager.rs:74-79):
`(position / GRID_CELL_SIZE).floor() as i32` on each coordinate —
floor division on the integral coordinates of the model. -/
def Grid.world_to_cell (position : Pos) : Cell :=
  (Int.fdiv position.1 GRID_CELL_SIZE, Int.fdiv position.2 GRID_CELL_SIZE)

/-- `Grid::insert` (object_manager.rs:29-38): push the id onto the cell's
member list, creating the cell if absent. -/
def Grid.insert (g : Grid) (id : String) (position : Pos) : Grid :=
  let cell_pos := Grid.world_to_cell position
  let objects := (lookupA g.cells cell_pos).getD []
  ⟨setA g.cells cell_pos (objects ++ [id])⟩

/-- `Grid::remove` (object_manager.rs:40-48): drop the id from the cell
computed from `position`, deleting the cell when it becomes empty. -/
def Grid.remove (g : Grid) (id : String) (position : Pos) : Grid :=
  let cell_pos := Grid.world_to_cell position
  match lookupA g.cells cell_pos with
  | some objects =>
      let objects2 := objects.filter (fun obj_id => obj_id ≠ id)
      if objects2.isEmpty then ⟨removeA g.cells cell_pos⟩
      else ⟨setA g.cells cell_pos objects2⟩
  | none => g

/-- `Grid::update_position` (object_manager.rs:50-57): relocate membership
only when the computed cell changes. -/
def Grid.update_position (g : Grid) (id : String) (old_pos new_pos : Pos) : Grid :=
  let old_cell := Grid.world_to_cell old_pos
  let new_cell := Grid.world_to_cell new_pos
  if old_cell ≠ new_cell then (g.remove id old_pos).insert id new_pos else g

/-- Whether the grid records `id` as a member of cell `c`. -/
def Grid.cellHas (g : Grid) (c : Cell) (id : String) : Bool :=
  decide (id ∈ (lookupA g.cells c).getD [])

/-- The ceiling division used by `get_nearby_objects`
(`(radius / GRID_CELL_SIZE).ceil() as i32`). -/
def intCeilDiv (a b : Int) : Int := -(Int.fdiv (-a) b)

/-- The inclusive range `-r..=r` of the ring scan. -/
def rangeClosed (r : Int) : List Int :=
  if r < 0 then [] else (List.range (2 * r.toNat + 1)).map (fun i => -r + (i : Int))

/-- `Grid::get_nearby_objects` (object_manager.rs:59-72): scan the
`(2r+1) × (2r+1)` block of cells around the center cell (dx outer, dy
inner) and concatenate the member lists; there is no per-object distance
filtering. -/
def Grid.get_nearby_objects (g : Grid) (position : Pos) (radius : Int) : List String :=
  let cell_radius : Int := intCeilDiv radius GRID_CELL_SIZE
  let center := Grid.world_to_cell position
  (rangeClosed cell_radius).foldl (fun acc dx =>
    (rangeClosed cell_radius).foldl (fun acc2 dy =>
      acc2 ++ ((lookupA g.cells (center.1 + dx, center.2 + dy)).getD [])) acc) []

/-- `ObjectData` (object_manager.rs:82-87) restricted to the fields the
store's bookkeeping reads: the cached position and the last-update time
(the owned renderable itself is opaque to the manager). -/
structure ObjectData where
  position : Pos
  last_update : Int
deriving DecidableEq, Repr

/-- `ObjectManager` (object_manager.rs:89-95). -/
structure ObjectManager where
  objects : List (String × ObjectData)
  grid : Grid
  update_queue : List String
  total_time : Int
deriving DecidableEq, Repr

/-- `ObjectManager::new` (object_manager.rs:97-105). -/
def ObjectManager.new : ObjectManager :=
  { objects := [], grid := ⟨[]⟩, update_queue := [], total_time := 0 }

/-- `ObjectManager::add` (object_manager.rs:107-122): insert into the grid
bucket computed from the object's position, store the record with
`last_update = total_time`, and enqueue the id. -/
def ObjectManager.add (om : ObjectManager) (id : String) (position : Pos) : ObjectManager :=
  { om with grid := om.grid.insert id position
            objects := setA om.objects id ⟨position, om.total_time⟩
            update_queue := om.update_queue ++ [id] }

/-- `ObjectManager::remove` (object_manager.rs:124-132): detach the
record, and remove the id from the grid (at the cached position) and from
the scheduling queue. -/
def ObjectManager.remove (om : ObjectManager) (id : String) : ObjectManager :=
  match lookupA om.objects id with
  | some object_data =>
      { om with objects := removeA om.objects id
                grid := om.grid.remove id object_data.position
                update_queue := om.update_queue.filter (fun queue_id => queue_id ≠ id) }
  | none => om

/-- The while-loop of `ObjectManager::update_batch`
(object_manager.rs:164-186). `upd` stands for the opaque
`Renderable::update(delta_time)` of the stored object, given as the new
position as a function of id, old position and `delta_time` (the manager
only observes the position change). `budget` is
`max_updates - updates_performed`; an id popped from the queue with no
matching record is skipped without consuming budget, exactly as in the
source (the loop body is guarded by `objects.get_mut(&id)`). `fuel`
bounds the number of loop iterations so the recursion is structural:
every iteration decreases `budget + update_queue.length` by one, so any
`fuel ≥ budget + update_queue.length` runs the loop to its natural exit
(`update_batch` below passes exactly that bound). -/
def updateBatchGo (upd : String → Pos → Int → Pos) (delta_time : Int) :
    Nat → Nat → ObjectManager → ObjectManager
  | 0, _, om => om
  | _ + 1, 0, om => om
  | fuel + 1, budget + 1, om =>
    match om.update_queue with
    | [] => om
    | id :: rest =>
      match lookupA om.objects id with
      | some object_data =>
          let old_position := object_data.position
          let new_position := upd id old_position delta_time
          let grid2 := if old_position ≠ new_position then
              om.grid.update_position id old_position new_position
            else om.grid
          let om2 : ObjectManager :=
            { om with objects := setA om.objects id ⟨new_position, om.total_time⟩
                      grid := grid2
                      update_queue := rest ++ [id] }
          updateBatchGo upd delta_time fuel budget om2
      | none =>
          updateBatchGo upd delta_time fuel (budget + 1) { om with update_queue := rest }

/-- A stable insertion placing `a` before the first element it compares
`le` to: the building block of the stable sort below. -/
def insertSorted (le : String → String → Bool) (a : String) : List String → List String
  | [] => [a]
  | b :: rest => if le a b then a :: b :: rest else b :: insertSorted le a rest

/-- Model of `Vec::sort_by` with a total comparison derived from `le`
(a stable sort: elements comparing equal keep their original order),
implemented as insertion sort. -/
def sortByStable (le : String → String → Bool) (l : List String) : List String :=
  l.foldr (insertSorted le) []

/-- `ObjectManager::update_batch` (object_manager.rs:160-202): advance
`total_time`, run the bounded update loop, then reorder the queue by
ascending `last_update` (a stable `sort_by`). -/
def ObjectManager.update_batch (om : ObjectManager) (upd : String → Pos → Int → Pos)
    (delta_time : Int) (max_updates : Nat) : ObjectManager :=
  let om1 := { om with total_time := om.total_time + delta_time }
  let om2 := updateBatchGo upd delta_time (max_updates + om1.update_queue.length)
    max_updates om1
  { om2 with update_queue := sortByStable (fun a b =>
      ((lookupA om2.objects a).map (fun d => d.last_update)).getD 0 ≤
      ((lookupA om2.objects b).map (fun d => d.last_update)).getD 0) om2.update_queue }

/-! ## Color-identity allocator (`src/src/element.rs`) -/

/-- A 4-byte color `[u8; 4]`. -/
abbrev Color := Nat × Nat × Nat × Nat

/-- `ObjectId::generate_random_color` (element.rs:64-72): three random
bytes from the thread rng and a fixed alpha of 255. `rng` is the stream
of random byte triples, indexed by draw number. -/
def generate_random_color (rng : Nat → Nat × Nat × Nat) (draw : Nat) : Color :=
  ((rng draw).1, (rng draw).2.1, (rng draw).2.2, 255)

/-- The retry loop of `ObjectId::generate_unique_color_id`
(element.rs:51-62), made observable by a fuel parameter: the source is an
unbounded `loop` that returns only when a candidate misses the `used`
set (`ID_COLOR_MAP.1.contains_key`); `none` means the loop is still
running after `fuel` iterations — the source has no error path at all. -/
def generate_unique_color_id_go (used : Color → Bool) (rng : Nat → Nat × Nat × Nat) :
    Nat → Nat → Option Color
  | _, 0 => none
  | draw, fuel + 1 =>
    let color_id := generate_random_color rng draw
    if used color_id then generate_unique_color_id_go used rng (draw + 1) fuel
    else some color_id

/-! ## Specification-level predicates -/

/-- A recorded stack of history units is invertible along a chain of
observable states: unit `i` maps state `i-1` forward (redo payloads) to
state `i` and state `i` backward (undo payloads) to state `i-1`. This is
the spec's `HistoryUnit` self-consistency invariant (§3: item N's undo
data is captured relative to the state left by item N-1), which the
recording setters establish by snapshotting old/new values. -/
def ChainInv : AppState → List HistoryUnit → AppState → Prop
  | a, [], b => a = b
  | a, unit :: units, b =>
      ∃ m, applyHistoryUnit a unit false = m ∧ applyHistoryUnit m unit true = a ∧
        ChainInv m units b

/-- Recursive form of `insertByPriority` (same insertion point: before
the first strictly-lower-priority message, at the end if none). -/
def ordInsert (body : UpdateBody) : List UpdateMessage → List UpdateMessage
  | [] => [.update body]
  | m :: rest =>
    if msgLowerPriority m body then .update body :: m :: rest
    else m :: ordInsert body rest

/-- The priority a buffered message sorts by (the buffer only ever holds
`Update` messages). -/
def msgPriority : UpdateMessage → Nat
  | .update body => body.priority
  | .forceUpdate => 0

/-- The predicate selecting buffered messages of priority `p`. -/
def prioEq (p : Nat) : UpdateMessage → Bool
  | .update body => body.priority = p
  | .forceUpdate => false

/-- The sub-sequence of buffered messages carrying priority `p`
(arrival order preserved). -/
def filterPriority (p : Nat) (l : List UpdateMessage) : List UpdateMessage :=
  l.filter (prioEq p)

/-- Descending-priority order of a message buffer. -/
def SortedDesc (l : List UpdateMessage) : Prop :=
  l.Pairwise (fun m1 m2 => msgPriority m2 ≤ msgPriority m1)

/-- The buffer built by feeding `arrivals` (in arrival order) through the
priority-ordered insertion of `add_message`. -/
def bufferOfArrivals (arrivals : List UpdateBody) : List UpdateMessage :=
  arrivals.foldl insertByPriority []

/-- Spatial-index consistency (spec §8): the grid records an id exactly in
the cell computed from that object's currently stored position. -/
def GridConsistent (om : ObjectManager) : Prop :=
  ∀ id c, om.grid.cellHas c id = true ↔
    ∃ data, lookupA om.objects id = some data ∧ c = Grid.world_to_cell data.position

/-- The store operations quantified over by the spatial-consistency claim. -/
inductive OMOp where
  | add (id : String) (position : Pos)
  | remove (id : String)
  | update_batch (delta_time : Int) (max_updates : Nat)
deriving DecidableEq, Repr

/-- Apply one store operation (`upd` is the opaque per-object update). -/
def applyOp (upd : String → Pos → Int → Pos) (om : ObjectManager) : OMOp → ObjectManager
  | .add id position => om.add id position
  | .remove id => om.remove id
  | .update_batch delta_time max_updates => om.update_batch upd delta_time max_updates

/-- Apply a sequence of store operations in order. -/
def applyOps (upd : String → Pos → Int → Pos) (om : ObjectManager) (ops : List OMOp) :
    ObjectManager :=
  ops.foldl (applyOp upd) om

/-- A sequence of store operations in which every `add` uses an id not
currently held (the source's `ObjectId` generator only produces fresh
ids, and replay re-adds an element only after it has been removed). -/
def validOps (upd : String → Pos → Int → Pos) (om : ObjectManager) : List OMOp → Bool
  | [] => true
  | op :: rest =>
    (match op with
     | .add id _ => (lookupA om.objects id).isNone
     | _ => true) && validOps upd (applyOp upd om op) rest

/-! ## Concrete scenario data (shared by the closed evidence theorems) -/

/-- A recorded object update taking field `x` of object `a` from 0 to 5. -/
def itemX05 : HistoryItem := .objectUpdate "a" [("x", 0)] [("x", 5)] 100

/-- A recorded object update taking field `x` of object `a` from 5 to 9. -/
def itemX59 : HistoryItem := .objectUpdate "a" [("x", 5)] [("x", 9)] 300

/-- A one-item unit holding `itemX05`, stamped 100 ms. -/
def unitX05 : HistoryUnit := ⟨[itemX05], 100⟩

/-- A one-item unit holding `itemX59`, stamped 300 ms. -/
def unitX59 : HistoryUnit := ⟨[itemX59], 300⟩

/-- Observable state with object `a` at `x = 0`. -/
def stateX0 : AppState := ⟨[("a", [("x", 0)])], []⟩

/-- Observable state with object `a` at `x = 5`. -/
def stateX5 : AppState := ⟨[("a", [("x", 5)])], []⟩

/-- Observable state with object `a` at `x = 9`. -/
def stateX9 : AppState := ⟨[("a", [("x", 9)])], []⟩

/-! ## Buffer-insertion lemmas (shared by the RenderControl claims) -/

theorem insertByPriority_eq_ordInsert (l : List UpdateMessage) (body : UpdateBody) :
    insertByPriority l body = ordInsert body l := by
  induction l with
  | nil => rfl
  | cons m rest ih =>
    simp only [insertByPriority, ordInsert, List.findIdx?_cons]
    by_cases hm : msgLowerPriority m body
    · simp [hm, List.insertIdx_zero]
    · simp only [hm, if_false, Bool.false_eq_true, List.findIdx?_succ]
      cases hidx : rest.findIdx? (fun m => msgLowerPriority m body) with
      | none =>
          simp only [Option.map_none', Option.getD_none, List.length_cons,
            List.insertIdx_succ_cons]
          rw [← ih]
          simp [insertByPriority, hidx]
      | some j =>
          simp only [Option.map_some', Option.getD_some, List.insertIdx_succ_cons]
          rw [← ih]
          simp [insertByPriority, hidx]

theorem ordInsert_ne_nil (body : UpdateBody) (l : List UpdateMessage) :
    ordInsert body l ≠ [] := by
  cases l with
  | nil => simp [ordInsert]
  | cons m rest =>
      simp only [ordInsert]
      split <;> simp

theorem ordInsert_perm (body : UpdateBody) (l : List UpdateMessage) :
    (ordInsert body l).Perm (.update body :: l) := by
  induction l with
  | nil => simp [ordInsert]
  | cons m rest ih =>
    simp only [ordInsert]
    split
    · exact List.Perm.refl _
    · exact (ih.cons m).trans (List.Perm.swap _ _ _)

theorem mem_ordInsert {x : UpdateMessage} {body : UpdateBody} {l : List UpdateMessage}
    (hx : x ∈ ordInsert body l) : x = .update body ∨ x ∈ l := by
  simpa using (ordInsert_perm body l).mem_iff.mp hx

theorem msgLowerPriority_lt {m : UpdateMessage} {body : UpdateBody}
    (h : msgLowerPriority m body = true) : msgPriority m < body.priority := by
  cases m with
  | forceUpdate => simp [msgLowerPriority] at h
  | update mb => simpa [msgLowerPriority, msgPriority] using h

theorem ordInsert_only {body : UpdateBody} {l : List UpdateMessage}
    (ho : ∀ m ∈ l, m ≠ .forceUpdate) :
    ∀ m ∈ ordInsert body l, m ≠ .forceUpdate := by
  intro m hm
  rcases mem_ordInsert hm with rfl | hm
  · simp
  · exact ho m hm

theorem ordInsert_sorted {l : List UpdateMessage} (body : UpdateBody)
    (hs : SortedDesc l) (ho : ∀ m ∈ l, m ≠ .forceUpdate) :
    SortedDesc (ordInsert body l) := by
  induction l with
  | nil => simp [ordInsert, SortedDesc]
  | cons m rest ih =>
    rcases List.pairwise_cons.mp hs with ⟨hm, hrest⟩
    simp only [ordInsert]
    split
    · rename_i hlow
      have hmb := msgLowerPriority_lt hlow
      refine List.pairwise_cons.mpr ⟨?_, hs⟩
      intro y hy
      rcases List.mem_cons.mp hy with rfl | hy
      · exact Nat.le_of_lt hmb
      · exact le_trans (hm _ hy) (Nat.le_of_lt hmb)
    · rename_i hlow
      have hne := ho m (List.mem_cons_self m rest)
      have hor : ∀ x ∈ rest, x ≠ UpdateMessage.forceUpdate :=
        fun x hx => ho x (List.mem_cons_of_mem _ hx)
      refine List.pairwise_cons.mpr ⟨?_, ih hrest hor⟩
      intro y hy
      rcases mem_ordInsert hy with rfl | hy
      · cases m with
        | forceUpdate => exact absurd rfl hne
        | update mb =>
            have hnl : ¬ (mb.priority < body.priority) := by
              simpa [msgLowerPriority] using hlow
            have : body.priority ≤ mb.priority := by omega
            exact this
      · exact hm _ hy

theorem filterPriority_nil_of_lt {p : Nat} {l : List UpdateMessage}
    (h : ∀ x ∈ l, msgPriority x < p) : filterPriority p l = [] := by
  induction l with
  | nil => rfl
  | cons m rest ih =>
    have hm := h m (List.mem_cons_self m rest)
    have hrest : filterPriority p rest = [] :=
      ih (fun x hx => h x (List.mem_cons_of_mem _ hx))
    cases m with
    | forceUpdate => simpa [filterPriority, List.filter_cons, prioEq] using hrest
    | update mb =>
        have hne : ¬ mb.priority = p := by
          intro hEq
          simp [msgPriority, hEq] at hm
        simpa [filterPriority, List.filter_cons, prioEq, hne] using hrest

theorem filterPriority_ordInsert {l : List UpdateMessage} (p : Nat) (body : UpdateBody)
    (hs : SortedDesc l) :
    filterPriority p (ordInsert body l) =
      if body.priority = p then filterPriority p l ++ [.update body]
      else filterPriority p l := by
  induction l with
  | nil =>
    by_cases hp : body.priority = p <;>
      simp [ordInsert, filterPriority, List.filter_cons, prioEq, hp]
  | cons m rest ih =>
    rcases List.pairwise_cons.mp hs with ⟨hm, hrest⟩
    simp only [ordInsert]
    split
    · rename_i hlow
      have hmb := msgLowerPriority_lt hlow
      by_cases hp : body.priority = p
      · have hnil : filterPriority p (m :: rest) = [] := by
          refine filterPriority_nil_of_lt ?_
          intro x hx
          rcases List.mem_cons.mp hx with rfl | hx
          · omega
          · exact lt_of_le_of_lt (hm _ hx) (by omega)
        rw [if_pos hp, hnil]
        calc filterPriority p (.update body :: m :: rest)
            = .update body :: filterPriority p (m :: rest) := by
              simp [filterPriority, List.filter_cons, prioEq, hp]
          _ = [.update body] := by rw [hnil]
      · rw [if_neg hp]
        cases m with
        | forceUpdate => simp [filterPriority, List.filter_cons, prioEq, hp]
        | update mb => simp [filterPriority, List.filter_cons, prioEq, hp]
    · rename_i hlow
      have ihr := ih hrest
      by_cases hp : body.priority = p
      · rw [if_pos hp] at ihr ⊢
        cases hpm : prioEq p m
        · simp only [filterPriority, List.filter_cons, hpm] at ihr ⊢
          simp [ihr]
        · simp only [filterPriority, List.filter_cons, hpm] at ihr ⊢
          simp [ihr]
      · rw [if_neg hp] at ihr ⊢
        cases hpm : prioEq p m
        · simp only [filterPriority, List.filter_cons, hpm] at ihr ⊢
          simp [ihr]
        · simp only [filterPriority, List.filter_cons, hpm] at ihr ⊢
          simp [ihr]

theorem bufferFold_sorted_only :
    ∀ (arrivals : List UpdateBody) (buf : List UpdateMessage),
      SortedDesc buf → (∀ m ∈ buf, m ≠ .forceUpdate) →
      SortedDesc (arrivals.foldl insertByPriority buf) ∧
      ∀ m ∈ arrivals.foldl insertByPriority buf, m ≠ .forceUpdate := by
  intro arrivals
  induction arrivals with
  | nil => intro buf hs ho; exact ⟨hs, ho⟩
  | cons a ars ih =>
    intro buf hs ho
    simp only [List.foldl_cons, insertByPriority_eq_ordInsert]
    exact ih _ (ordInsert_sorted a hs ho) (ordInsert_only ho)

theorem bufferFold_filter :
    ∀ (arrivals : List UpdateBody) (buf : List UpdateMessage),
      SortedDesc buf → (∀ m ∈ buf, m ≠ .forceUpdate) →
      ∀ p, filterPriority p (arrivals.foldl insertByPriority buf) =
        filterPriority p buf ++ filterPriority p (arrivals.map .update) := by
  intro arrivals
  induction arrivals with
  | nil => intro buf _ _ p; simp [filterPriority]
  | cons a ars ih =>
    intro buf hs ho p
    simp only [List.foldl_cons, insertByPriority_eq_ordInsert, List.map_cons]
    rw [ih _ (ordInsert_sorted a hs ho) (ordInsert_only ho) p,
      filterPriority_ordInsert p a hs]
    by_cases hp : a.priority = p
    · simp [hp, filterPriority, List.filter_cons, prioEq, List.append_assoc]
    · simp [hp, filterPriority, List.filter_cons, prioEq]

theorem bufferFold_perm :
    ∀ (arrivals : List UpdateBody) (buf : List UpdateMessage),
      (arrivals.foldl insertByPriority buf).Perm (buf ++ arrivals.map .update) := by
  intro arrivals
  induction arrivals with
  | nil => intro buf; simp
  | cons a ars ih =>
    intro buf
    simp only [List.foldl_cons, insertByPriority_eq_ordInsert, List.map_cons]
    refine (ih (ordInsert a buf)).trans ?_
    refine ((ordInsert_perm a buf).append_right (ars.map .update)).trans ?_
    simpa using List.perm_middle.symm

/-! ## Claim theorems -/

/-- C10: `can_undo` returns true whenever an open (not yet finalized)
unit exists, regardless of the undo stack — its disjunction tests
`current_unit.is_some()` directly. -/
theorem c10_can_undo_sees_open_unit (h : History) (unit : HistoryUnit)
    (hu : h.current_unit = some unit) : h.can_undo = true := by
  simp [History.can_undo, hu]

/-- C10 witness: immediately after a single `push` on a fresh `History`
the open unit makes `can_undo` true while the undo stack is still empty. -/
theorem c10_can_undo_witness :
    (History.new.push itemX05 0 0).can_undo = true ∧
    (History.new.push itemX05 0 0).undo_stack = [] :=
  ⟨c10_can_undo_sees_open_unit _ ⟨[itemX05], 0⟩ (by decide), by decide⟩

/-- C6: the color-allocation retry loop of
`ObjectId::generate_unique_color_id` never terminates once every
alpha-255 color is taken: for every iteration bound the loop is still
running (`none`), and the source contains no error path at all — it
diverges instead of reporting a recoverable error. -/
theorem c6_color_exhaustion_loops_forever (used : Color → Bool)
    (rng : Nat → Nat × Nat × Nat)
    (hused : ∀ r g b : Nat, used (r, g, b, 255) = true) :
    ∀ draw fuel, generate_unique_color_id_go used rng draw fuel = none := by
  intro draw fuel
  induction fuel generalizing draw with
  | zero => rfl
  | succ n ih =>
    simp only [generate_unique_color_id_go, generate_random_color, hused, if_true]
    exact ih _

/-- C6 witness: with every alpha-255 color taken, three loop iterations
from draw 0 still yield no color. -/
theorem c6_color_exhaustion_witness :
    generate_unique_color_id_go (fun _ => true) (fun _ => (0, 0, 0)) 0 3 = none :=
  c6_color_exhaustion_loops_forever (fun _ => true) (fun _ => (0, 0, 0))
    (fun _ _ _ => rfl) 0 3

/-- C9: `RenderControl` never emits an empty batch: if no batch handed to
the channel so far is empty, the same holds after any `add_message`,
because `flush` sends nothing when the buffer is empty and otherwise
sends the nonempty drained buffer. -/
theorem c9_no_empty_batches (rc : RenderControl) (message : UpdateMessage) (now : Nat)
    (h : [] ∉ rc.sent) : [] ∉ (rc.add_message message now).sent := by
  have flush_case : ∀ rc2 : RenderControl, [] ∉ rc2.sent → [] ∉ (rc2.flush now).sent := by
    intro rc2 h2
    simp only [RenderControl.flush]
    split
    · exact h2
    · rename_i hne
      intro hmem
      rcases List.mem_append.mp hmem with hl | hr
      · exact h2 hl
      · have : rc2.buffer = [] := by simpa using (List.mem_singleton.mp hr).symm
        simp [this] at hne
  cases message with
  | forceUpdate => simpa [RenderControl.add_message] using flush_case rc h
  | update body =>
    simp only [RenderControl.add_message, RenderControl.flush_if_needed]
    split
    · exact flush_case _ h
    · exact h

/-- C9 witness: force-flushing a one-message buffer emits no empty batch. -/
theorem c9_no_empty_batches_witness :
    [] ∉ ((⟨[.update ⟨.sceneUpdate, [], 0, 0⟩], 0, []⟩ : RenderControl).add_message
      .forceUpdate 5).sent :=
  c9_no_empty_batches _ .forceUpdate 5 (by simp)

/-- C1: evidence of the stuck-flag bug. `undo` sets `is_undoing = true`
on entry but resets it only on the failure paths, so after one successful
`undo` every later `push` is silently ignored: the redo stack is *not*
cleared and `redo` afterwards succeeds (returns `true`), contrary to the
redo-invalidation invariant. Concretely: record one object update, undo
it (returns `true`), push a new mutation 600 ms later, then redo. -/
theorem c1_push_after_undo_is_dead :
    ((⟨History.new.push itemX05 100 100, some stateX5, stateX0⟩ : Sys).undo).2 = true ∧
    (((⟨History.new.push itemX05 100 100, some stateX5, stateX0⟩ : Sys).undo).1.hist.push
        itemX59 700 700).redo_stack ≠ [] ∧
    (({ ((⟨History.new.push itemX05 100 100, some stateX5, stateX0⟩ : Sys).undo).1 with
        hist := (((⟨History.new.push itemX05 100 100, some stateX5, stateX0⟩ : Sys).undo).1.hist.push
          itemX59 700 700) } : Sys).redo).2 = true := by decide

/-- C3: evidence of the inverted boundary search in `undo_to_time`. With
two units stamped 100 ms and 300 ms and a target of 200 ms, the claim
expects only the 300 ms unit moved to the redo stack and the 100 ms unit
replayed (leaving `x = 5`); the code's
`position(|unit| unit.timestamp <= target)` matches the *oldest* unit
(index 0), so the whole stack is drained to the redo stack and the live
state is reset to its initial condition (`x = 0`) with nothing replayed;
the replay it would perform also passes `is_undo = true` (undo payloads,
reversed items), not a redo-style replay. -/
theorem c3_undo_to_time_drains_all :
    ((⟨{ History.new with undo_stack := [unitX05, unitX59] }, some stateX9, stateX0⟩ :
        Sys).undo_to_time 200).1.hist.undo_stack = [] ∧
    ((⟨{ History.new with undo_stack := [unitX05, unitX59] }, some stateX9, stateX0⟩ :
        Sys).undo_to_time 200).1.hist.redo_stack = [unitX59, unitX05] ∧
    ((⟨{ History.new with undo_stack := [unitX05, unitX59] }, some stateX9, stateX0⟩ :
        Sys).undo_to_time 200).1.app = some stateX0 ∧
    ((⟨{ History.new with undo_stack := [unitX05, unitX59] }, some stateX9, stateX0⟩ :
        Sys).undo_to_time 200).2 = true := by decide

/-- C7 counterexample: with `CELL_SIZE = 100`, A at (10,10) and B at
(150,10), `get_nearby((0,0), 50)` scans the full ±1 ring of cells and
returns B as well (B sits in cell (1,0), inside the ring, 150 units
away); after moving A to (200,10) the same query still returns B, not
the empty set. This falsifies both result sets of the claim. -/
theorem c7_get_nearby_counterexample :
    "B" ∈ ((ObjectManager.new.add "A" (10, 10)).add "B" (150, 10)).grid.get_nearby_objects
        (0, 0) 50 ∧
    "B" ∈ (((ObjectManager.new.add "A" (10, 10)).add "B" (150, 10)).update_batch
        (fun id p _ => if id = "A" then (200, 10) else p) 0 2).grid.get_nearby_objects
        (0, 0) 50 := by decide

/-- C7 amended: the first query returns exactly {A, B} (in grid scan
order) because B's cell (1,0) lies within the `ceil(50/100) = 1` ring
around (0,0); after moving A to (200,10) — cell (2,0), outside the ring —
the query returns exactly {B}. -/
theorem c7_get_nearby_amended :
    ((ObjectManager.new.add "A" (10, 10)).add "B" (150, 10)).grid.get_nearby_objects
        (0, 0) 50 = ["A", "B"] ∧
    (((ObjectManager.new.add "A" (10, 10)).add "B" (150, 10)).update_batch
        (fun id p _ => if id = "A" then (200, 10) else p) 0 2).grid.get_nearby_objects
        (0, 0) 50 = ["B"] := by decide

/-- C5: the 500 ms history window. Starting from a non-replaying
`History` with no open unit, a second `push` at most 500 ms after the
first joins the same open unit (one unit with both items, no new unit on
the undo stack); a second `push` strictly more than 500 ms later
finalizes the first one-item unit onto the undo stack and opens a new
unit containing only the second item. -/
theorem c5_history_windowing (h : History) (i1 i2 : HistoryItem) (t1 t2 w1 w2 : Nat)
    (hfu : h.is_undoing = false) (hfr : h.is_redoing = false)
    (hcu : h.current_unit = none) :
    (t2 - t1 ≤ 500 →
      ((h.push i1 t1 w1).push i2 t2 w2).current_unit = some ⟨[i1, i2], w1⟩ ∧
      ((h.push i1 t1 w1).push i2 t2 w2).undo_stack = h.undo_stack) ∧
    (t2 - t1 > 500 →
      ((h.push i1 t1 w1).push i2 t2 w2).undo_stack = h.undo_stack ++ [⟨[i1], w1⟩] ∧
      ((h.push i1 t1 w1).push i2 t2 w2).current_unit = some ⟨[i2], w2⟩) := by
  have h1 : h.push i1 t1 w1 =
      { h with current_unit := some ⟨[i1], w1⟩, redo_stack := [], last_push_time := t1 } := by
    simp [History.push, hfu, hfr, hcu, History.finalize_current_unit]
  rw [h1]
  constructor
  · intro hle
    have hng : ¬ (t2 - t1 > 500) := by omega
    simp [History.push, hfu, hfr, History.finalize_current_unit, hng]
  · intro hgt
    simp [History.push, hfu, hfr, History.finalize_current_unit, hgt]

/-- C5 witness: pushes at t = 0 ms and t = 300 ms merge into one open
unit holding both items, leaving the undo stack empty. -/
theorem c5_history_windowing_witness :
    ((History.new.push itemX05 0 100).push itemX59 300 300).current_unit =
      some ⟨[itemX05, itemX59], 100⟩ ∧
    ((History.new.push itemX05 0 100).push itemX59 300 300).undo_stack = [] :=
  (c5_history_windowing History.new itemX05 itemX59 0 300 100 300 rfl rfl rfl).1
    (by omega)

/-- C4: `ForceUpdate` on a buffer built from `N ≥ 1` buffered updates
flushes exactly one batch — the whole buffer — leaves the buffer empty,
and that batch is ordered by descending priority, preserves arrival
(FIFO) order within each priority class, and contains exactly the `N`
buffered messages. -/
theorem c4_force_update_single_sorted_batch (arrivals : List UpdateBody)
    (last_flush now : Nat) (sent0 : List (List UpdateMessage))
    (hne : arrivals ≠ []) :
    ((⟨bufferOfArrivals arrivals, last_flush, sent0⟩ : RenderControl).add_message
        .forceUpdate now).sent = sent0 ++ [bufferOfArrivals arrivals] ∧
    ((⟨bufferOfArrivals arrivals, last_flush, sent0⟩ : RenderControl).add_message
        .forceUpdate now).buffer = [] ∧
    SortedDesc (bufferOfArrivals arrivals) ∧
    (∀ p, filterPriority p (bufferOfArrivals arrivals) =
      filterPriority p (arrivals.map .update)) ∧
    (bufferOfArrivals arrivals).Perm (arrivals.map .update) := by
  have hsorted : SortedDesc (bufferOfArrivals arrivals) :=
    (bufferFold_sorted_only arrivals [] (List.Pairwise.nil) (by simp)).1
  have hperm : (bufferOfArrivals arrivals).Perm (arrivals.map .update) := by
    simpa [bufferOfArrivals] using bufferFold_perm arrivals []
  have hfil : ∀ p, filterPriority p (bufferOfArrivals arrivals) =
      filterPriority p (arrivals.map .update) := by
    intro p
    simpa [bufferOfArrivals, filterPriority] using
      bufferFold_filter arrivals [] (List.Pairwise.nil) (by simp) p
  have hnonempty : (bufferOfArrivals arrivals).isEmpty = false := by
    have hlen : (bufferOfArrivals arrivals).length = arrivals.length := by
      simpa using hperm.length_eq
    rcases arrivals with _ | ⟨a, ars⟩
    · exact absurd rfl hne
    · cases hb : bufferOfArrivals (a :: ars) with
      | nil => rw [hb] at hlen; simp at hlen
      | cons x xs => simp
  refine ⟨?_, ?_, hsorted, hfil, hperm⟩
  · simp [RenderControl.add_message, RenderControl.flush, hnonempty]
  · simp [RenderControl.add_message, RenderControl.flush, hnonempty]

/-- C4 witness: four buffered updates with priorities 1, 3, 1, 2 flush as
the single batch ordered 3, 2, 1, 1 with the two priority-1 messages in
arrival order. -/
theorem c4_force_update_witness :
    ((⟨bufferOfArrivals
        [⟨.objectUpdate "m1", [], 0, 1⟩, ⟨.objectUpdate "m2", [], 0, 3⟩,
         ⟨.objectUpdate "m3", [], 0, 1⟩, ⟨.objectUpdate "m4", [], 0, 2⟩],
        0, []⟩ : RenderControl).add_message .forceUpdate 5).sent =
      [[.update ⟨.objectUpdate "m2", [], 0, 3⟩, .update ⟨.objectUpdate "m4", [], 0, 2⟩,
        .update ⟨.objectUpdate "m1", [], 0, 1⟩, .update ⟨.objectUpdate "m3", [], 0, 1⟩]] ∧
    ((⟨bufferOfArrivals
        [⟨.objectUpdate "m1", [], 0, 1⟩, ⟨.objectUpdate "m2", [], 0, 3⟩,
         ⟨.objectUpdate "m3", [], 0, 1⟩, ⟨.objectUpdate "m4", [], 0, 2⟩],
        0, []⟩ : RenderControl).add_message .forceUpdate 5).buffer = [] := by
  have h := c4_force_update_single_sorted_batch
    [⟨.objectUpdate "m1", [], 0, 1⟩, ⟨.objectUpdate "m2", [], 0, 3⟩,
     ⟨.objectUpdate "m3", [], 0, 1⟩, ⟨.objectUpdate "m4", [], 0, 2⟩]
    0 5 [] (by simp)
  refine ⟨?_, h.2.1⟩
  rw [h.1]
  decide

/-- C8 counterexample: the claim quantifies over *any* sequence of
`add`/`remove`/update operations, but `add` with an id already held
inserts a second grid membership without removing the first (`Grid.insert`
then `HashMap::insert`, which overwrites only the record): after
`add "a" (10,10); add "a" (150,10)` the grid still records `"a"` in cell
(0,0) while the stored position maps to cell (1,0), so no single grid
cell equals `floor(position/CELL_SIZE)`. -/
theorem c8_duplicate_add_counterexample :
    ((ObjectManager.new.add "a" (10, 10)).add "a" (150, 10)).grid.cellHas (0, 0) "a" = true ∧
    lookupA ((ObjectManager.new.add "a" (10, 10)).add "a" (150, 10)).objects "a" =
      some ⟨(150, 10), 0⟩ ∧
    Grid.world_to_cell (150, 10) = (1, 0) ∧
    ¬ GridConsistent ((ObjectManager.new.add "a" (10, 10)).add "a" (150, 10)) := by
  refine ⟨by decide, by decide, by decide, ?_⟩
  intro hgc
  rcases (hgc "a" (0, 0)).mp (by decide) with ⟨data, hdata, hcell⟩
  have hlook : lookupA ((ObjectManager.new.add "a" (10, 10)).add "a" (150, 10)).objects "a" =
      some ⟨(150, 10), 0⟩ := by decide
  rw [hlook] at hdata
  cases hdata
  exact absurd hcell (by decide)

/-! ## Undo/redo round trip (C2) -/

theorem chainInv_append (us vs : List HistoryUnit) (a c : AppState) :
    ChainInv a (us ++ vs) c ↔ ∃ b, ChainInv a us b ∧ ChainInv b vs c := by
  induction us generalizing a with
  | nil => simp [ChainInv]
  | cons u ds ih =>
    simp only [List.cons_append, ChainInv]
    constructor
    · rintro ⟨m, h1, h2, h3⟩
      rcases (ih m).mp h3 with ⟨b, hb1, hb2⟩
      exact ⟨b, ⟨m, h1, h2, hb1⟩, hb2⟩
    · rintro ⟨b, ⟨m, h1, h2, h3⟩, hb2⟩
      exact ⟨m, h1, h2, (ih m).mpr ⟨b, h3, hb2⟩⟩

theorem undoN_phase :
    ∀ (us rs : List HistoryUnit) (t : Nat) (fu fr : Bool) (a b init : AppState),
      ChainInv a us b →
      undoN us.length ⟨⟨us, rs, none, t, fu, fr⟩, some b, init⟩ =
        ⟨⟨[], rs ++ us.reverse, none, t, (if us.isEmpty then fu else true), fr⟩,
          some a, init⟩ := by
  intro us
  induction us using List.reverseRecOn with
  | nil =>
    intro rs t fu fr a b init hchain
    have hab : a = b := hchain
    subst hab
    simp [undoN]
  | append_singleton ds u ih =>
    intro rs t fu fr a b init hchain
    rcases (chainInv_append ds [u] a b).mp hchain with ⟨mid, hds, hu⟩
    obtain ⟨m, hf, hbk, hm⟩ := hu
    have hmb : m = b := hm
    subst hmb
    have hstep : ((⟨⟨ds ++ [u], rs, none, t, fu, fr⟩, some m, init⟩ : Sys).undo).1 =
        ⟨⟨ds, rs ++ [u], none, t, true, fr⟩, some mid, init⟩ := by
      simp [Sys.undo, History.finalize_current_unit, List.getLast?_concat,
        List.dropLast_concat, hbk]
    have hlen : (ds ++ [u]).length = ds.length + 1 := by simp
    rw [hlen]
    show undoN ds.length ((⟨⟨ds ++ [u], rs, none, t, fu, fr⟩, some m, init⟩ : Sys).undo).1 = _
    rw [hstep, ih (rs ++ [u]) t true fr a mid init hds]
    simp [List.reverse_append, List.append_assoc]

theorem redoN_phase :
    ∀ (us os rs : List HistoryUnit) (t : Nat) (fu fr : Bool) (a b init : AppState),
      ChainInv a us b →
      redoN us.length ⟨⟨os, rs ++ us.reverse, none, t, fu, fr⟩, some a, init⟩ =
        ⟨⟨os ++ us, rs, none, t, fu, (if us.isEmpty then fr else true)⟩,
          some b, init⟩ := by
  intro us
  induction us with
  | nil =>
    intro os rs t fu fr a b init hchain
    have hab : a = b := hchain
    subst hab
    simp [redoN]
  | cons u ds ih =>
    intro os rs t fu fr a b init hchain
    obtain ⟨m, hf, hbk, hm⟩ := hchain
    have hrw : rs ++ (u :: ds).reverse = (rs ++ ds.reverse) ++ [u] := by
      simp [List.append_assoc]
    rw [hrw]
    have hstep :
        ((⟨⟨os, (rs ++ ds.reverse) ++ [u], none, t, fu, fr⟩, some a, init⟩ : Sys).redo).1 =
        ⟨⟨os ++ [u], rs ++ ds.reverse, none, t, fu, true⟩, some m, init⟩ := by
      simp [Sys.redo, History.finalize_current_unit, List.getLast?_concat,
        List.dropLast_concat, hf]
    have hlen : (u :: ds).length = ds.length + 1 := by simp
    rw [hlen]
    show redoN ds.length
        ((⟨⟨os, (rs ++ ds.reverse) ++ [u], none, t, fu, fr⟩, some a, init⟩ : Sys).redo).1 = _
    rw [hstep, ih (os ++ [u]) rs t fu true m b init hm]
    simp

/-- C2: the undo/redo round trip. For mutations recorded as `k` invertible
history units (each unit maps the previous observable state forward via
its redo payloads and the next state backward via its undo payloads —
the spec's unit self-consistency invariant, which the recording setters
establish by snapshotting old/new values), `undo() × k` followed by
`redo() × k` restores the observable live state reached after the last
mutation, and the undo stack is restored as well; `k = 1` gives the
`undo(); redo()` no-op law. -/
theorem c2_undo_redo_round_trip (units rs : List HistoryUnit) (t : Nat)
    (a b init : AppState) (hchain : ChainInv a units b) :
    (redoN units.length (undoN units.length
        ⟨⟨units, rs, none, t, false, false⟩, some b, init⟩)).app = some b ∧
    (redoN units.length (undoN units.length
        ⟨⟨units, rs, none, t, false, false⟩, some b, init⟩)).hist.undo_stack = units := by
  rw [undoN_phase units rs t false false a b init hchain]
  rw [redoN_phase units [] rs t (if units.isEmpty then false else true) false a b init
    hchain]
  simp

/-- C2 witness: one recorded unit (`x: 0 → 5`); `undo(); redo()` returns
the observable state to `x = 5` and the unit to the undo stack. -/
theorem c2_round_trip_witness :
    (redoN 1 (undoN 1
        ⟨⟨[unitX05], [], none, 0, false, false⟩, some stateX5, stateX0⟩)).app =
      some stateX5 ∧
    (redoN 1 (undoN 1
        ⟨⟨[unitX05], [], none, 0, false, false⟩, some stateX5, stateX0⟩)).hist.undo_stack =
      [unitX05] :=
  c2_undo_redo_round_trip [unitX05] [] 0 stateX0 stateX5 stateX0
    ⟨stateX5, by decide, by decide, rfl⟩

/-! ## Spatial-index consistency (C8) -/

theorem lookupA_setA {κ α : Type} [DecidableEq κ] (l : List (κ × α)) (k k' : κ) (v : α) :
    lookupA (setA l k v) k' = if k = k' then some v else lookupA l k' := by
  induction l with
  | nil => simp [setA, lookupA]
  | cons kv rest ih =>
    obtain ⟨a, b⟩ := kv
    simp only [setA]
    by_cases hak : a = k
    · subst hak
      by_cases hk : a = k'
      · simp [lookupA, hk]
      · simp [lookupA, hk]
    · by_cases hak2 : a = k'
      · subst hak2
        have hka : ¬ k = a := fun h => hak h.symm
        simp [lookupA, hak, hka]
      · simp [lookupA, hak, hak2, ih]

theorem lookupA_removeA {κ α : Type} [DecidableEq κ] (l : List (κ × α)) (k k' : κ) :
    lookupA (removeA l k) k' = if k = k' then none else lookupA l k' := by
  induction l with
  | nil => simp [removeA, lookupA]
  | cons kv rest ih =>
    obtain ⟨a, b⟩ := kv
    simp only [removeA]
    by_cases hak : a = k
    · subst hak
      by_cases hk : a = k'
      · subst hk; simpa [lookupA] using ih
      · simpa [lookupA, hk] using ih
    · by_cases hak2 : a = k'
      · subst hak2
        have hka : ¬ k = a := fun h => hak h.symm
        simp [lookupA, hak, hka]
      · simp [lookupA, hak, hak2, ih]

theorem cellHas_insert (g : Grid) (id : String) (p : Pos) (c : Cell) (j : String) :
    (g.insert id p).cellHas c j = true ↔
      (c = Grid.world_to_cell p ∧ j = id) ∨ g.cellHas c j = true := by
  unfold Grid.insert Grid.cellHas
  simp only [lookupA_setA]
  by_cases hc : Grid.world_to_cell p = c
  · subst hc
    simp [List.mem_append, or_comm, and_comm]
  · have hcc : ¬ c = Grid.world_to_cell p := fun h => hc h.symm
    simp [hc, hcc]

theorem cellHas_remove (g : Grid) (id : String) (p : Pos) (c : Cell) (j : String) :
    (g.remove id p).cellHas c j = true ↔
      ¬ (c = Grid.world_to_cell p ∧ j = id) ∧ g.cellHas c j = true := by
  cases hl : lookupA g.cells (Grid.world_to_cell p) with
  | none =>
    have hrm : g.remove id p = g := by simp [Grid.remove, hl]
    rw [hrm]
    constructor
    · intro hmem
      refine ⟨?_, hmem⟩
      rintro ⟨rfl, rfl⟩
      simp [Grid.cellHas, hl] at hmem
    · rintro ⟨_, hmem⟩
      exact hmem
  | some objs =>
    by_cases hemp : (objs.filter (fun obj_id => obj_id ≠ id)).isEmpty
    · have hall : ∀ o ∈ objs, o = id := by
        intro o ho
        by_contra hne
        have hmemf : o ∈ objs.filter (fun obj_id => obj_id ≠ id) :=
          List.mem_filter.mpr ⟨ho, by simpa using hne⟩
        rw [List.isEmpty_iff.mp hemp] at hmemf
        simp at hmemf
      have hrm : g.remove id p = ⟨removeA g.cells (Grid.world_to_cell p)⟩ := by
        simp only [Grid.remove, hl]
        rw [if_pos hemp]
      rw [hrm]
      simp only [Grid.cellHas, lookupA_removeA]
      by_cases hc : Grid.world_to_cell p = c
      · subst hc
        rw [if_pos rfl]
        simp only [Option.getD_none, hl, Option.getD_some, decide_eq_true_eq]
        constructor
        · intro hmem; simp at hmem
        · rintro ⟨hno, hmem⟩
          exact absurd ⟨by trivial, hall j hmem⟩ hno
      · have hcc : ¬ c = Grid.world_to_cell p := fun h => hc h.symm
        simp [hc, hcc]
    · have hrm : g.remove id p =
          ⟨setA g.cells (Grid.world_to_cell p)
            (objs.filter (fun obj_id => obj_id ≠ id))⟩ := by
        simp only [Grid.remove, hl]
        rw [if_neg hemp]
      rw [hrm]
      simp only [Grid.cellHas, lookupA_setA]
      by_cases hc : Grid.world_to_cell p = c
      · subst hc
        rw [if_pos rfl]
        simp only [hl, Option.getD_some, decide_eq_true_eq, List.mem_filter,
          decide_not, Bool.not_eq_eq_eq_not, Bool.not_true, decide_eq_false_iff_not]
        constructor
        · rintro ⟨hmem, hne⟩
          exact ⟨by rintro ⟨_, rfl⟩; exact hne rfl, hmem⟩
        · rintro ⟨hno, hmem⟩
          exact ⟨hmem, fun heq => hno ⟨by trivial, heq⟩⟩
      · have hcc : ¬ c = Grid.world_to_cell p := fun h => hc h.symm
        simp [hc, hcc]

theorem cellHas_update_position (g : Grid) (id : String) (old_pos new_pos : Pos)
    (c : Cell) (j : String) :
    (g.update_position id old_pos new_pos).cellHas c j = true ↔
      (if Grid.world_to_cell old_pos = Grid.world_to_cell new_pos
       then g.cellHas c j = true
       else (c = Grid.world_to_cell new_pos ∧ j = id) ∨
         (¬ (c = Grid.world_to_cell old_pos ∧ j = id) ∧ g.cellHas c j = true)) := by
  by_cases hcell : Grid.world_to_cell old_pos = Grid.world_to_cell new_pos
  · simp [Grid.update_position, hcell]
  · rw [if_neg hcell]
    have hsplit : g.update_position id old_pos new_pos =
        (g.remove id old_pos).insert id new_pos := by
      simp [Grid.update_position, hcell]
    rw [hsplit, cellHas_insert, cellHas_remove]

theorem gridConsistent_new : GridConsistent ObjectManager.new := by
  intro j c
  simp [ObjectManager.new, Grid.cellHas, lookupA]

theorem gridConsistent_add (om : ObjectManager) (id : String) (p : Pos)
    (hfresh : lookupA om.objects id = none) (hgc : GridConsistent om) :
    GridConsistent (om.add id p) := by
  intro j c
  show (om.grid.insert id p).cellHas c j = true ↔
    ∃ data, lookupA (setA om.objects id ⟨p, om.total_time⟩) j = some data ∧
      c = Grid.world_to_cell data.position
  rw [cellHas_insert]
  simp only [lookupA_setA]
  by_cases hj : j = id
  · subst hj
    rw [if_pos rfl]
    constructor
    · rintro (⟨hc, _⟩ | hmem)
      · exact ⟨⟨p, om.total_time⟩, rfl, hc⟩
      · rcases (hgc j c).mp hmem with ⟨data, hdata, _⟩
        rw [hfresh] at hdata
        cases hdata
    · rintro ⟨data, hdata, hc⟩
      cases hdata
      exact Or.inl ⟨hc, rfl⟩
  · rw [if_neg (fun h => hj h.symm)]
    constructor
    · rintro (⟨_, hji⟩ | hmem)
      · exact absurd hji hj
      · exact (hgc j c).mp hmem
    · intro hex
      exact Or.inr ((hgc j c).mpr hex)

theorem gridConsistent_remove (om : ObjectManager) (id : String)
    (hgc : GridConsistent om) : GridConsistent (om.remove id) := by
  cases hl : lookupA om.objects id with
  | none =>
    have hrm : om.remove id = om := by simp [ObjectManager.remove, hl]
    rw [hrm]
    exact hgc
  | some data =>
    have hrm : om.remove id = { om with
        objects := removeA om.objects id
        grid := om.grid.remove id data.position
        update_queue := om.update_queue.filter (fun queue_id => queue_id ≠ id) } := by
      simp only [ObjectManager.remove, hl]
    rw [hrm]
    intro j c
    show (om.grid.remove id data.position).cellHas c j = true ↔
      ∃ d, lookupA (removeA om.objects id) j = some d ∧
        c = Grid.world_to_cell d.position
    rw [cellHas_remove]
    simp only [lookupA_removeA]
    by_cases hj : j = id
    · subst hj
      rw [if_pos rfl]
      constructor
      · rintro ⟨hno, hmem⟩
        rcases (hgc j c).mp hmem with ⟨d, hd, hc⟩
        rw [hl] at hd
        cases hd
        exact absurd ⟨hc, rfl⟩ hno
      · rintro ⟨d, hd, _⟩
        cases hd
    · rw [if_neg (fun h => hj h.symm)]
      constructor
      · rintro ⟨_, hmem⟩
        exact (hgc j c).mp hmem
      · intro hex
        refine ⟨?_, (hgc j c).mpr hex⟩
        rintro ⟨_, rfl⟩
        exact hj rfl

theorem gridConsistent_step (om : ObjectManager) (id : String) (data : ObjectData)
    (new_position : Pos) (tt : Int) (q : List String)
    (hl : lookupA om.objects id = some data) (hgc : GridConsistent om) :
    GridConsistent { om with
      objects := setA om.objects id ⟨new_position, tt⟩
      grid := if data.position ≠ new_position then
          om.grid.update_position id data.position new_position
        else om.grid
      update_queue := q } := by
  intro j c
  show (if data.position ≠ new_position then
      om.grid.update_position id data.position new_position else om.grid).cellHas c j
      = true ↔
    ∃ d, lookupA (setA om.objects id ⟨new_position, tt⟩) j = some d ∧
      c = Grid.world_to_cell d.position
  simp only [lookupA_setA]
  by_cases hpos : data.position = new_position
  · rw [if_neg (by simpa using hpos)]
    by_cases hj : j = id
    · subst hj
      rw [if_pos rfl]
      constructor
      · intro hmem
        rcases (hgc j c).mp hmem with ⟨d, hd, hc⟩
        rw [hl] at hd
        cases hd
        exact ⟨⟨new_position, tt⟩, rfl, by rw [← hpos]; exact hc⟩
      · rintro ⟨d, hd, hc⟩
        cases hd
        refine (hgc j c).mpr ⟨data, hl, ?_⟩
        rw [hpos]
        exact hc
    · rw [if_neg (fun h => hj h.symm)]
      exact hgc j c
  · rw [if_pos hpos]
    rw [cellHas_update_position]
    by_cases hcell : Grid.world_to_cell data.position = Grid.world_to_cell new_position
    · rw [if_pos hcell]
      by_cases hj : j = id
      · subst hj
        rw [if_pos rfl]
        constructor
        · intro hmem
          rcases (hgc j c).mp hmem with ⟨d, hd, hc⟩
          rw [hl] at hd
          cases hd
          exact ⟨⟨new_position, tt⟩, rfl, by rw [← hcell]; exact hc⟩
        · rintro ⟨d, hd, hc⟩
          cases hd
          refine (hgc j c).mpr ⟨data, hl, ?_⟩
          rw [hcell]
          exact hc
      · rw [if_neg (fun h => hj h.symm)]
        exact hgc j c
    · rw [if_neg hcell]
      by_cases hj : j = id
      · subst hj
        rw [if_pos rfl]
        constructor
        · rintro (⟨hc, _⟩ | ⟨hno, hmem⟩)
          · exact ⟨⟨new_position, tt⟩, rfl, hc⟩
          · rcases (hgc j c).mp hmem with ⟨d, hd, hc⟩
            rw [hl] at hd
            cases hd
            exact absurd ⟨hc, rfl⟩ hno
        · rintro ⟨d, hd, hc⟩
          cases hd
          exact Or.inl ⟨hc, rfl⟩
      · rw [if_neg (fun h => hj h.symm)]
        constructor
        · rintro (⟨_, hji⟩ | ⟨_, hmem⟩)
          · exact absurd hji hj
          · exact (hgc j c).mp hmem
        · intro hex
          exact Or.inr ⟨by rintro ⟨_, rfl⟩; exact hj rfl, (hgc j c).mpr hex⟩

theorem updateBatchGo_queue_nil (upd : String → Pos → Int → Pos) (delta_time : Int)
    (n b : Nat) (om : ObjectManager) (hq : om.update_queue = []) :
    updateBatchGo upd delta_time (n + 1) (b + 1) om = om := by
  simp only [updateBatchGo, hq]

theorem updateBatchGo_cons_some (upd : String → Pos → Int → Pos) (delta_time : Int)
    (n b : Nat) (om : ObjectManager) (id : String) (rest : List String)
    (object_data : ObjectData) (hq : om.update_queue = id :: rest)
    (hl : lookupA om.objects id = some object_data) :
    updateBatchGo upd delta_time (n + 1) (b + 1) om =
      updateBatchGo upd delta_time n b { om with
        objects := setA om.objects id
          ⟨upd id object_data.position delta_time, om.total_time⟩
        grid := if object_data.position ≠ upd id object_data.position delta_time then
            om.grid.update_position id object_data.position
              (upd id object_data.position delta_time)
          else om.grid
        update_queue := rest ++ [id] } := by
  simp only [updateBatchGo, hq, hl]

theorem updateBatchGo_cons_none (upd : String → Pos → Int → Pos) (delta_time : Int)
    (n b : Nat) (om : ObjectManager) (id : String) (rest : List String)
    (hq : om.update_queue = id :: rest) (hl : lookupA om.objects id = none) :
    updateBatchGo upd delta_time (n + 1) (b + 1) om =
      updateBatchGo upd delta_time n (b + 1) { om with update_queue := rest } := by
  simp only [updateBatchGo, hq, hl]

theorem gridConsistent_updateBatchGo (upd : String → Pos → Int → Pos)
    (delta_time : Int) :
    ∀ (fuel budget : Nat) (om : ObjectManager), GridConsistent om →
      GridConsistent (updateBatchGo upd delta_time fuel budget om) := by
  intro fuel
  induction fuel with
  | zero => intro budget om h; exact h
  | succ n ih =>
    intro budget om h
    cases budget with
    | zero => exact h
    | succ b =>
      cases hq : om.update_queue with
      | nil =>
        rw [updateBatchGo_queue_nil upd delta_time n b om hq]
        exact h
      | cons id rest =>
        cases hl : lookupA om.objects id with
        | some object_data =>
          rw [updateBatchGo_cons_some upd delta_time n b om id rest object_data hq hl]
          exact ih b _ (gridConsistent_step om id object_data
            (upd id object_data.position delta_time) om.total_time (rest ++ [id]) hl h)
        | none =>
          rw [updateBatchGo_cons_none upd delta_time n b om id rest hq hl]
          exact ih (b + 1) _ (fun j c => h j c)

theorem gridConsistent_update_batch (om : ObjectManager)
    (upd : String → Pos → Int → Pos) (delta_time : Int) (max_updates : Nat)
    (hgc : GridConsistent om) :
    GridConsistent (om.update_batch upd delta_time max_updates) := by
  have h1 : GridConsistent { om with total_time := om.total_time + delta_time } :=
    fun j c => hgc j c
  have h2 := gridConsistent_updateBatchGo upd delta_time
    (max_updates + om.update_queue.length) max_updates
    { om with total_time := om.total_time + delta_time } h1
  exact fun j c => h2 j c

theorem gridConsistent_applyOps (upd : String → Pos → Int → Pos) :
    ∀ (ops : List OMOp) (om : ObjectManager), GridConsistent om →
      validOps upd om ops = true → GridConsistent (applyOps upd om ops) := by
  intro ops
  induction ops with
  | nil => intro om h _; exact h
  | cons op rest ih =>
    intro om h hv
    have hnext : GridConsistent (applyOp upd om op) := by
      cases op with
      | add id pos =>
          have hfresh : lookupA om.objects id = none := by
            have := (Bool.and_eq_true _ _).mp hv
            simpa [validOps, Option.isNone_iff_eq_none] using this.1
          exact gridConsistent_add om id pos hfresh h
      | remove id => exact gridConsistent_remove om id h
      | update_batch delta_time max_updates =>
          exact gridConsistent_update_batch om upd delta_time max_updates h
    have hrest : validOps upd (applyOp upd om op) rest = true := by
      have := (Bool.and_eq_true _ _).mp hv
      exact this.2
    exact ih _ hnext hrest

/-- C8 (amended): starting from a fresh `ObjectManager`, after any
sequence of `add`/`remove`/`update_batch` operations in which every `add`
uses an id not currently held (which is what the unique id allocator
guarantees), every held id is recorded by the grid in exactly the cell
`(floor(x/CELL_SIZE), floor(y/CELL_SIZE))` of its currently stored
position, and in no other cell. -/
theorem c8_spatial_index_consistency (upd : String → Pos → Int → Pos)
    (ops : List OMOp) (hv : validOps upd ObjectManager.new ops = true) :
    GridConsistent (applyOps upd ObjectManager.new ops) :=
  gridConsistent_applyOps upd ops ObjectManager.new gridConsistent_new hv

/-- C8 witness: two adds, a bounded update pass that moves A across a
cell boundary, and a remove — the spatial index stays consistent. -/
theorem c8_spatial_index_witness :
    GridConsistent (applyOps (fun id p _ => if id = "A" then (200, 10) else p)
      ObjectManager.new
      [.add "A" (10, 10), .add "B" (150, 10), .update_batch 1 2, .remove "A"]) :=
  c8_spatial_index_consistency (fun id p _ => if id = "A" then (200, 10) else p)
    [.add "A" (10, 10), .add "B" (150, 10), .update_batch 1 2, .remove "A"]
    (by decide)

end Editing
